import Mathlib

/-!
Verification of the api.dave.io repository: the hierarchical permission
evaluator, the token validator, the KV metrics counters, the KV backup and
restore tool, the image size-target optimiser, the URL-list endpoint and the
alt-text handler, embedded shallowly in Lean.  Components whose implementation
is not part of the sources (only their documentation is) are modelled from the
spec and say so in their doc comments.
-/

/-- ASCII lower-casing of one character; model of JS `toLowerCase` on the
ASCII range. -/
def lowerChar (c : Char) : Char :=
  if 'A' ≤ c ∧ c ≤ 'Z' then Char.ofNat (c.toNat + 32) else c

/-- Lower-case a string character by character. -/
def lowerStr (s : String) : String :=
  String.mk (s.toList.map lowerChar)

/-- Split a character list on the colon separator; model of splitting a
scope string on `:` (every colon starts a new segment, empty segments kept). -/
def splitColonChars : List Char → List (List Char)
  | [] => [[]]
  | c :: cs =>
    if c = ':' then [] :: splitColonChars cs
    else
      match splitColonChars cs with
      | [] => [[c]]
      | s :: ss => (c :: s) :: ss

/-- Split a scope string on colons into its segments. -/
def splitColon (s : String) : List String :=
  (splitColonChars s.toList).map String.mk

/-- Modelled from the spec: the permission evaluator `authorize` of §4.2; its
implementation (`server/utils/auth.ts`) is missing from the sources.  Both
strings are lower-cased; access is granted for the wildcard or admin subject,
for an equal scope, or when the subject's colon segments are an in-order,
full-segment leading run of the required scope's segments. -/
def authorize (subject requiredScope : String) : Bool :=
  if lowerStr subject = "*" then true
  else if lowerStr subject = "admin" then true
  else if lowerStr subject = lowerStr requiredScope then true
  else List.isPrefixOf (splitColon (lowerStr subject)) (splitColon (lowerStr requiredScope))

/-- Claim C1: `authorize subject requiredScope` returns true exactly when,
after lower-casing, the subject is `*` or `admin`, or equals the required
scope, or its colon-split segments are an in-order full-segment leading run of
the required scope's segments; in particular `authorize "apiz" "api:metrics"`,
`authorize "apiary" "api"` (no substring matching) and
`authorize "api:metrics" "api"` (a child scope does not grant its parent) are
all false. -/
theorem authorize_iff :
    (∀ subject requiredScope : String,
      authorize subject requiredScope = true ↔
        (lowerStr subject = "*" ∨ lowerStr subject = "admin" ∨
         lowerStr subject = lowerStr requiredScope ∨
         splitColon (lowerStr subject) <+: splitColon (lowerStr requiredScope)))
    ∧ authorize "apiz" "api:metrics" = false
    ∧ authorize "apiary" "api" = false
    ∧ authorize "api:metrics" "api" = false := by
  refine ⟨fun subject requiredScope => ?_, by decide, by decide, by decide⟩
  unfold authorize
  split_ifs with h1 h2 h3
  · simp [h1]
  · simp [h2]
  · simp [h3]
  · simp [h1, h2, h3, List.isPrefixOf_iff_prefix]

/-- Character of one decimal digit (meaningful for digits below 10). -/
def decChar (d : ℕ) : Char :=
  Char.ofNat ('0'.toNat + d)

/-- Value of a decimal digit character, if it is one. -/
def decVal (c : Char) : Option ℕ :=
  if '0' ≤ c ∧ c ≤ '9' then some (c.toNat - '0'.toNat) else none

/-- Little-endian decimal digits of a number; the fuel bounds the recursion
and any fuel of at least `n` is enough. -/
def toDigitsLE : ℕ → ℕ → List ℕ
  | 0, _ => []
  | fuel + 1, n => if n = 0 then [] else n % 10 :: toDigitsLE fuel (n / 10)

/-- Number denoted by little-endian decimal digits. -/
def ofDigitsLE : List ℕ → ℕ
  | [] => 0
  | d :: ds => d + 10 * ofDigitsLE ds

/-- Decimal-string encoding of a natural number; model of JS `String(n)`. -/
def natToString (n : ℕ) : String :=
  if n = 0 then "0" else String.mk ((toDigitsLE n n).reverse.map (fun d => decChar d))

/-- Digit values of a character list, `none` when some character is not a
decimal digit. -/
def decValList : List Char → Option (List ℕ)
  | [] => some []
  | c :: cs =>
    match decVal c, decValList cs with
    | some d, some ds => some (d :: ds)
    | _, _ => none

/-- Decode a stored decimal string back to a natural number; `none` when the
string is empty or has a non-digit character. -/
def decodeNat (s : String) : Option ℕ :=
  (decValList s.toList).bind fun ds =>
    if ds = [] then none else some (ds.foldl (fun a d => a * 10 + d) 0)

theorem ofDigitsLE_toDigitsLE : ∀ fuel n : ℕ, n ≤ fuel → ofDigitsLE (toDigitsLE fuel n) = n := by
  intro fuel
  induction fuel with
  | zero => intro n hn; interval_cases n; rfl
  | succ f ih =>
    intro n hn
    by_cases h0 : n = 0
    · simp [h0, toDigitsLE, ofDigitsLE]
    · rw [toDigitsLE, if_neg h0]
      have hlt : n / 10 < n := Nat.div_lt_self (Nat.pos_of_ne_zero h0) (by norm_num)
      have : ofDigitsLE (toDigitsLE f (n / 10)) = n / 10 := ih (n / 10) (by omega)
      rw [ofDigitsLE, this]
      omega

theorem toDigitsLE_lt : ∀ fuel n d : ℕ, d ∈ toDigitsLE fuel n → d < 10 := by
  intro fuel
  induction fuel with
  | zero => intro n d h; simp [toDigitsLE] at h
  | succ f ih =>
    intro n d h
    rw [toDigitsLE] at h
    by_cases h0 : n = 0
    · simp [h0] at h
    · rw [if_neg h0] at h
      rcases List.mem_cons.mp h with h | h
      · subst h; exact Nat.mod_lt _ (by norm_num)
      · exact ih _ _ h

theorem decVal_decChar {d : ℕ} (hd : d < 10) : decVal (decChar d) = some d := by
  interval_cases d <;> rfl

theorem decValList_decChar : ∀ l : List ℕ, (∀ d ∈ l, d < 10) →
    decValList (l.map (fun d => decChar d)) = some l := by
  intro l
  induction l with
  | nil => intro _; rfl
  | cons d ds ih =>
    intro h
    have hd : d < 10 := h d (List.mem_cons_self d ds)
    have hds := ih fun x hx => h x (List.mem_cons_of_mem d hx)
    simp [decValList, decVal_decChar hd, hds]

theorem foldl_reverse_ofDigitsLE (ds : List ℕ) :
    ds.reverse.foldl (fun a d => a * 10 + d) 0 = ofDigitsLE ds := by
  rw [List.foldl_reverse]
  induction ds with
  | nil => rfl
  | cons d ds ih => simp [ofDigitsLE, ← ih]; omega

theorem decodeNat_natToString (n : ℕ) : decodeNat (natToString n) = some n := by
  by_cases h0 : n = 0
  · subst h0; decide
  · rw [natToString, if_neg h0, decodeNat]
    have hdig : ∀ d ∈ (toDigitsLE n n).reverse, d < 10 := by
      intro d hd
      exact toDigitsLE_lt n n d (List.mem_reverse.mp hd)
    have hmap : decValList ((toDigitsLE n n).reverse.map (fun d => decChar d)) =
        some (toDigitsLE n n).reverse := decValList_decChar _ hdig
    have htl : (String.mk ((toDigitsLE n n).reverse.map (fun d => decChar d))).toList =
        (toDigitsLE n n).reverse.map (fun d => decChar d) := rfl
    rw [htl, hmap]
    have hne : toDigitsLE n n ≠ [] := by
      rcases n with _ | m
      · exact absurd rfl h0
      · rw [toDigitsLE, if_neg h0]; simp
    have hne' : (toDigitsLE n n).reverse ≠ [] := by simpa using hne
    rw [Option.some_bind]
    rw [if_neg hne', foldl_reverse_ofDigitsLE, ofDigitsLE_toDigitsLE n n le_rfl]

/-- Flat KV namespace: each key maps to an optionally present stored string. -/
def Store := String → Option String

/-- Write one key of the store. -/
def putStore (store : Store) (key value : String) : Store :=
  fun k => if k = key then some value else store k

/-- Modelled from the spec: read a counter value, treating an absent key (or
an undecodable value) as 0, per §4.3. -/
def readCounter (v : Option String) : ℕ :=
  match v with
  | none => 0
  | some s => (decodeNat s).getD 0

/-- Failure of the underlying KV write. -/
inductive StoreErr where
  | writeFailed
deriving DecidableEq

/-- A KV write that either succeeds or fails, driven by the scenario flag
`writeOk`. -/
def tryPut (writeOk : Bool) (store : Store) (key value : String) : Except StoreErr Store :=
  if writeOk then .ok (putStore store key value) else .error .writeFailed

/-- Modelled from the spec: `increment` of the KV metrics store (§4.3; the
implementation `server/utils/metrics` is missing from the sources).  It reads
the current value treating absent as 0, adds 1, and writes the decimal string
back; a failing write is caught, logged and swallowed, leaving the store
unchanged — the return type has no error case, so no error can propagate. -/
def increment (writeOk : Bool) (store : Store) (key : String) : Store :=
  match tryPut writeOk store key (natToString (readCounter (store key) + 1)) with
  | .ok s => s
  | .error _ => store

/-- N successive successful, sequential increments of one key. -/
def incrementN (n : ℕ) (store : Store) (key : String) : Store :=
  match n with
  | 0 => store
  | m + 1 => increment true (incrementN m store key) key

/-- Claim C4: starting from a store where the key is absent, N sequential
successful increments leave the key holding the decimal-string encoding of
exactly N (for N = 0 no call happens and the key stays absent, which reads
back as counter value 0). -/
theorem incrementN_exact (store : Store) (key : String) (n : ℕ)
    (habs : store key = none) :
    readCounter (incrementN n store key key) = n ∧
    (0 < n → incrementN n store key key = some (natToString n)) := by
  induction n with
  | zero => simp [incrementN, habs, readCounter]
  | succ m ih =>
    have hval : incrementN (m + 1) store key key = some (natToString (m + 1)) := by
      have hread : readCounter (incrementN m store key key) = m := ih.1
      show increment true (incrementN m store key) key key = _
      rw [increment, tryPut]
      simp [putStore, hread]
    constructor
    · rw [hval, readCounter, decodeNat_natToString]
      rfl
    · intro _
      exact hval

/-- Witness for C4: three increments of `metrics:ok` on an empty store leave
the stored value `"3"`. -/
theorem incrementN_exact_witness :
    incrementN 3 (fun _ => none) "metrics:ok" "metrics:ok" = some "3" := by
  have h := (incrementN_exact (fun _ => none) "metrics:ok" 3 rfl).2 (by norm_num)
  simpa using h

/-- The response of a handler: its primary result and HTTP status. -/
structure RequestOutcome (α : Type) where
  result : α
  status : ℕ

/-- Modelled from the spec: a handler that computes its primary outcome and
then records a best-effort metrics increment (§4.3, §7); the recording step
is fire-and-forget and does not touch the response. -/
def handleWithMetrics {α : Type} (writeOk : Bool) (store : Store) (key : String)
    (primary : RequestOutcome α) : RequestOutcome α × Store :=
  (primary, increment writeOk store key)

/-- Claim C5: a failure of the underlying store write during metrics recording
is swallowed (the store is left unchanged and `increment` returns normally —
its type has no error case, so nothing propagates), and the parent request's
response is the same whether the metrics write succeeds or fails. -/
theorem increment_fails_open :
    ∀ (α : Type) (writeOk : Bool) (store : Store) (key : String)
      (primary : RequestOutcome α),
    (handleWithMetrics writeOk store key primary).1 = primary ∧
    increment false store key = store ∧
    (handleWithMetrics false store key primary).1 =
      (handleWithMetrics true store key primary).1 := by
  intro α writeOk store key primary
  exact ⟨rfl, rfl, rfl⟩

/-- Typed failures of the token validator. -/
inductive AuthFailure where
  | invalidSignature
  | expired
  | revoked
deriving DecidableEq

/-- The authenticated identity returned on a successful validation. -/
structure AuthIdentity where
  subject : String
  tokenId : Option String
  issuedAt : ℕ
deriving DecidableEq

/-- A presented raw token: its decoded claims together with the abstract
outcome of verifying its signature against the shared secret. -/
structure RawToken where
  sub : String
  iat : ℕ
  exp : Option ℕ
  jti : Option String
  sigValid : Bool

/-- Is the optional `exp` claim present and in the past at time `now`? -/
def expiredAt (now : ℕ) : Option ℕ → Bool
  | none => false
  | some e => decide (e < now)

/-- Is the token's optional id marked revoked in the metrics store (marker key
`auth:revocation:<tokenId>`)? -/
def tokenRevoked (store : Store) : Option String → Bool
  | none => false
  | some tid => (store ("auth:revocation:" ++ tid)).isSome

/-- Modelled from the spec: the token validator `validate` of §4.1 (its
implementation in `server/utils/auth.ts` is missing from the sources).  Per
the testable property of §8, a token with `exp` in the past fails with
`Expired` regardless of signature validity, so the expiry check is evaluated
first; then the signature check, then the KV revocation lookup. -/
def validate (store : Store) (now : ℕ) (t : RawToken) :
    Except AuthFailure AuthIdentity :=
  if expiredAt now t.exp then .error .expired
  else if !t.sigValid then .error .invalidSignature
  else if tokenRevoked store t.jti then .error .revoked
  else .ok ⟨t.sub, t.jti, t.iat⟩

/-- Claim C6: a raw token whose `exp` claim is present and lies in the past at
validation time fails with `Expired`, regardless of whether its signature is
valid. -/
theorem validate_expired (store : Store) (now : ℕ) (t : RawToken) (e : ℕ)
    (hexp : t.exp = some e) (hpast : e < now) :
    validate store now t = .error .expired := by
  unfold validate
  rw [hexp]
  simp [expiredAt, hpast]

/-- Witness for C6: a token with an invalid signature and `exp = 5` validated
at time 100 fails with `Expired`. -/
theorem validate_expired_witness :
    validate (fun _ => none) 100 ⟨"api", 0, some 5, none, false⟩ = .error .expired :=
  validate_expired (fun _ => none) 100 ⟨"api", 0, some 5, none, false⟩ 5 rfl (by norm_num)

/-- Result of a successful optimisation: the chosen quality and the output
dimensions (the encoded buffer itself is abstracted by the size function). -/
structure OptResult where
  quality : ℕ
  width : ℕ
  height : ℕ
deriving DecidableEq

/-- Failure of the size-targeted optimiser. -/
inductive OptError where
  | targetUnreachable
deriving DecidableEq

/-- Modelled from the spec: phase 1 of the alt preset (§4.4), binary search
over qualities.  `size q` is the output byte size when re-encoding at quality
`q`, `lo`/`hi` is the remaining interval, `best` the highest passing quality
found so far, and the fuel is the fixed iteration cap. -/
def qualitySearchAux (size : ℕ → ℕ) (target : ℕ) :
    ℕ → ℕ → ℕ → Option ℕ → Option ℕ
  | 0, _, _, best => best
  | fuel + 1, lo, hi, best =>
    if hi < lo then best
    else
      let mid := (lo + hi) / 2
      if size mid ≤ target then qualitySearchAux size target fuel (mid + 1) hi (some mid)
      else qualitySearchAux size target fuel lo (mid - 1) best

/-- Modelled from the spec: the quality binary search over the integer range
[10, 95], converging on the highest quality whose output is at most the
target; 87 iterations always exceed the interval's width. -/
def qualitySearch (size : ℕ → ℕ) (target : ℕ) : Option ℕ :=
  qualitySearchAux size target 87 10 95 none

/-- Scale a dimension down by 15% with nearest-integer rounding. -/
def shrink (n : ℕ) : ℕ :=
  (85 * n + 50) / 100

/-- Modelled from the spec: the dimension-reduction loop of the alt preset
(§4.4 phases 2 and 3).  At the current dimensions the quality search is tried;
if no quality in range fits, both dimensions are reduced by 15% and the search
is retried, stopping with `TargetUnreachable` once the long edge would drop
below 1024 px.  The fuel is the loop's bounded iteration count; `optimise`
passes `max w h + 1`, which the stability theorem shows is always enough. -/
def optimiseGo (encSize : ℕ → ℕ → ℕ → ℕ) (target : ℕ) :
    ℕ → ℕ → ℕ → Except OptError OptResult
  | 0, _, _ => .error .targetUnreachable
  | fuel + 1, w, h =>
    match qualitySearch (fun q => encSize q w h) target with
    | some q => .ok ⟨q, w, h⟩
    | none =>
      if max (shrink w) (shrink h) < 1024 then .error .targetUnreachable
      else optimiseGo encSize target fuel (shrink w) (shrink h)

/-- Modelled from the spec: the size-targeted optimise path of the alt preset
(§4.4), starting at the input's dimensions. -/
def optimise (encSize : ℕ → ℕ → ℕ → ℕ) (target w h : ℕ) : Except OptError OptResult :=
  optimiseGo encSize target (max w h + 1) w h

theorem qualitySearchAux_correct (size : ℕ → ℕ) (target : ℕ)
    (mono : ∀ q q', q ≤ q' → size q ≤ size q') :
    ∀ fuel lo hi best,
      10 ≤ lo → hi ≤ 95 → hi + 1 - lo ≤ fuel →
      (∀ q, hi < q → q ≤ 95 → target < size q) →
      (match best with
       | none => lo = 10
       | some b => size b ≤ target ∧ b + 1 = lo ∧ 10 ≤ b ∧ b ≤ 95) →
      (match qualitySearchAux size target fuel lo hi best with
       | some b => 10 ≤ b ∧ b ≤ 95 ∧ size b ≤ target ∧
           ∀ q, 10 ≤ q → q ≤ 95 → size q ≤ target → q ≤ b
       | none => ∀ q, 10 ≤ q → q ≤ 95 → target < size q) := by
  intro fuel
  induction fuel with
  | zero =>
    intro lo hi best hlo hhi hfuel habove hbest
    rw [qualitySearchAux]
    match best, hbest with
    | none, hbest =>
      intro q hq1 hq2
      exact habove q (by omega) hq2
    | some b, hbest =>
      obtain ⟨hgood, hsucc, hb1, hb2⟩ := hbest
      refine ⟨hb1, hb2, hgood, ?_⟩
      intro q hq1 hq2 hq3
      by_contra hqb
      exact absurd hq3 (Nat.not_le_of_lt (habove q (by omega) hq2))
  | succ f ih =>
    intro lo hi best hlo hhi hfuel habove hbest
    rw [qualitySearchAux]
    by_cases hcol : hi < lo
    · rw [if_pos hcol]
      match best, hbest with
      | none, hbest =>
        intro q hq1 hq2
        exact habove q (by omega) hq2
      | some b, hbest =>
        obtain ⟨hgood, hsucc, hb1, hb2⟩ := hbest
        refine ⟨hb1, hb2, hgood, ?_⟩
        intro q hq1 hq2 hq3
        by_contra hqb
        exact absurd hq3 (Nat.not_le_of_lt (habove q (by omega) hq2))
    · rw [if_neg hcol]
      have hmid1 : lo ≤ (lo + hi) / 2 := by omega
      have hmid2 : (lo + hi) / 2 ≤ hi := by omega
      by_cases hfit : size ((lo + hi) / 2) ≤ target
      · rw [if_pos hfit]
        exact ih ((lo + hi) / 2 + 1) hi (some ((lo + hi) / 2)) (by omega) hhi (by omega)
          habove ⟨hfit, rfl, by omega, by omega⟩
      · rw [if_neg hfit]
        refine ih lo ((lo + hi) / 2 - 1) best hlo (by omega) (by omega) ?_ hbest
        intro q hq1 hq2
        have hqmid : (lo + hi) / 2 ≤ q := by omega
        exact Nat.lt_of_lt_of_le (Nat.lt_of_not_le hfit) (mono _ _ hqmid)

theorem qualitySearchAux_none (size : ℕ → ℕ) (target : ℕ)
    (hbad : ∀ q, 10 ≤ q → q ≤ 95 → target < size q) :
    ∀ fuel lo hi, 10 ≤ lo → hi ≤ 95 →
      qualitySearchAux size target fuel lo hi none = none := by
  intro fuel
  induction fuel with
  | zero => intro lo hi _ _; rfl
  | succ f ih =>
    intro lo hi hlo hhi
    rw [qualitySearchAux]
    by_cases hcol : hi < lo
    · rw [if_pos hcol]
    · rw [if_neg hcol]
      have hmid : target < size ((lo + hi) / 2) := hbad _ (by omega) (by omega)
      rw [if_neg (Nat.not_le_of_lt hmid)]
      exact ih lo ((lo + hi) / 2 - 1) hlo (by omega)

/-- Claim C2: when some quality in [10, 95] fits the byte budget at the
current dimensions, and the output size is monotonically non-decreasing in
quality, the size-targeted optimise path returns an encoding at the current
dimensions at the highest integer quality in [10, 95] whose output byte size
is at most the target. -/
theorem optimise_highest_quality (encSize : ℕ → ℕ → ℕ → ℕ) (target w h : ℕ)
    (mono : ∀ q q', q ≤ q' → encSize q w h ≤ encSize q' w h)
    (hfit : ∃ q, 10 ≤ q ∧ q ≤ 95 ∧ encSize q w h ≤ target) :
    ∃ b, optimise encSize target w h = .ok ⟨b, w, h⟩ ∧
      10 ≤ b ∧ b ≤ 95 ∧ encSize b w h ≤ target ∧
      ∀ q, 10 ≤ q → q ≤ 95 → encSize q w h ≤ target → q ≤ b := by
  have hmain := qualitySearchAux_correct (fun q => encSize q w h) target mono 87 10 95 none
    (by norm_num) (by norm_num) (by norm_num) (fun q hq1 hq2 => by omega) rfl
  rw [show qualitySearchAux (fun q => encSize q w h) target 87 10 95 none =
      qualitySearch (fun q => encSize q w h) target from rfl] at hmain
  match hq : qualitySearch (fun q => encSize q w h) target, hmain with
  | none, hmain =>
    exfalso
    obtain ⟨q, h1, h2, h3⟩ := hfit
    exact absurd h3 (Nat.not_le_of_lt (hmain q h1 h2))
  | some b, hmain =>
    obtain ⟨hb1, hb2, hb3, hb4⟩ := hmain
    refine ⟨b, ?_, hb1, hb2, hb3, hb4⟩
    rw [optimise, optimiseGo, hq]

/-- Witness for C2: with output size 1000·quality (monotone) and target
50000 at 2000×2000, the optimiser returns the highest fitting quality. -/
theorem optimise_highest_quality_witness :
    ∃ b, optimise (fun q _ _ => q * 1000) 50000 2000 2000 = .ok ⟨b, 2000, 2000⟩ ∧
      10 ≤ b ∧ b ≤ 95 ∧ b * 1000 ≤ 50000 ∧
      ∀ q, 10 ≤ q → q ≤ 95 → q * 1000 ≤ 50000 → q ≤ b := by
  simpa using optimise_highest_quality (fun q _ _ => q * 1000) 50000 2000 2000
    (fun q q' hqq => Nat.mul_le_mul_right 1000 hqq)
    ⟨10, by norm_num, by norm_num, by norm_num⟩

theorem shrink_le (n : ℕ) : shrink n ≤ n := by
  unfold shrink
  omega

theorem shrink_lt {n : ℕ} (h : 4 ≤ n) : shrink n < n := by
  unfold shrink
  omega

theorem shrink_mono : Monotone shrink := by
  intro a b hab
  unfold shrink
  omega

theorem max_shrink (w h : ℕ) : max (shrink w) (shrink h) = shrink (max w h) :=
  (shrink_mono.map_max).symm

theorem optimiseGo_fuel_stable (encSize : ℕ → ℕ → ℕ → ℕ) (target : ℕ) :
    ∀ m w h fuel₁ fuel₂, max w h ≤ m → max w h + 1 ≤ fuel₁ → max w h + 1 ≤ fuel₂ →
      optimiseGo encSize target fuel₁ w h = optimiseGo encSize target fuel₂ w h := by
  intro m
  induction m with
  | zero =>
    intro w h fuel₁ fuel₂ hm h1 h2
    obtain ⟨f₁, rfl⟩ : ∃ f, fuel₁ = f + 1 := ⟨fuel₁ - 1, by omega⟩
    obtain ⟨f₂, rfl⟩ : ∃ f, fuel₂ = f + 1 := ⟨fuel₂ - 1, by omega⟩
    have hw : w = 0 := by omega
    have hh : h = 0 := by omega
    subst hw hh
    rw [optimiseGo, optimiseGo]
    cases qualitySearch (fun q => encSize q 0 0) target with
    | some q => rfl
    | none => rfl
  | succ k ih =>
    intro w h fuel₁ fuel₂ hm h1 h2
    obtain ⟨f₁, rfl⟩ : ∃ f, fuel₁ = f + 1 := ⟨fuel₁ - 1, by omega⟩
    obtain ⟨f₂, rfl⟩ : ∃ f, fuel₂ = f + 1 := ⟨fuel₂ - 1, by omega⟩
    rw [optimiseGo, optimiseGo]
    cases qualitySearch (fun q => encSize q w h) target with
    | some q => rfl
    | none =>
      by_cases hfloor : max (shrink w) (shrink h) < 1024
      · rw [if_pos hfloor, if_pos hfloor]
      · rw [if_neg hfloor, if_neg hfloor]
        have hms : max (shrink w) (shrink h) = shrink (max w h) := max_shrink w h
        have hbig : 1024 ≤ shrink (max w h) := by omega
        have hlt : shrink (max w h) < max w h :=
          shrink_lt (by have := shrink_le (max w h); omega)
        exact ih (shrink w) (shrink h) f₁ f₂ (by omega) (by omega) (by omega)

/-- Claim C3: the size-targeted search terminates within a bounded number of
steps — the quality search is capped at 87 iterations and the
dimension-reduction loop is fuel-stable at `max w h + 1` iterations (any
larger cap yields the same result), it stops shrinking before the long edge
would drop below 1024 px, and when no quality in range meets the target at
any dimensions it fails with `TargetUnreachable` instead of looping. -/
theorem optimise_terminates (encSize : ℕ → ℕ → ℕ → ℕ) (target w h : ℕ) :
    (∀ fuel, max w h + 1 ≤ fuel →
      optimiseGo encSize target fuel w h = optimise encSize target w h) ∧
    ((∀ q w' h', 10 ≤ q → q ≤ 95 → target < encSize q w' h') →
      optimise encSize target w h = .error .targetUnreachable) := by
  constructor
  · intro fuel hfuel
    exact optimiseGo_fuel_stable encSize target (max w h) w h fuel (max w h + 1)
      le_rfl hfuel le_rfl
  · intro hbad
    rw [optimise]
    generalize max w h + 1 = fuel
    induction fuel generalizing w h with
    | zero => rfl
    | succ f ih =>
      rw [optimiseGo]
      have hnone : qualitySearch (fun q => encSize q w h) target = none :=
        qualitySearchAux_none (fun q => encSize q w h) target
          (fun q hq1 hq2 => hbad q w h hq1 hq2) 87 10 95 (by norm_num) (by norm_num)
      rw [hnone]
      by_cases hfloor : max (shrink w) (shrink h) < 1024
      · rw [if_pos hfloor]
      · rw [if_neg hfloor]
        exact ih (shrink w) (shrink h)

/-- Witness for C3: with a constant output size of 99 bytes against a target
of 42 bytes, extra fuel changes nothing and the optimiser fails with
`TargetUnreachable`. -/
theorem optimise_terminates_witness :
    optimiseGo (fun _ _ _ => 99) 42 3000 2000 2000 = optimise (fun _ _ _ => 99) 42 2000 2000 ∧
    optimise (fun _ _ _ => 99) 42 2000 2000 = .error .targetUnreachable :=
  ⟨(optimise_terminates (fun _ _ _ => 99) 42 2000 2000).1 3000 (by norm_num),
   (optimise_terminates (fun _ _ _ => 99) 42 2000 2000).2 (fun q w' h' _ _ => by norm_num)⟩

/-- Canonical JSON number: the value `(-1)^neg * mant / 10 ^ scale`, kept
with no trailing zero fraction digits, mirroring how JS renders the parsed
binary64 value back to text for ordinary magnitudes. -/
structure JNum where
  neg : Bool
  mant : ℕ
  scale : ℕ
deriving DecidableEq

/-- Drop trailing zero fraction digits from a mantissa/scale pair. -/
def stripZeros : ℕ → ℕ → ℕ × ℕ
  | mant, 0 => (mant, 0)
  | mant, s + 1 => if mant % 10 = 0 then stripZeros (mant / 10) s else (mant, s + 1)

/-- Build a canonical `JNum` from sign, mantissa digits, fraction length and
decimal exponent (numbers are kept exact; JS rounds to binary64, a divergence
only beyond 15–17 significant digits). -/
def mkJNum (neg : Bool) (mant : ℕ) (scale : ℕ) (ex : Int) : JNum :=
  let mant1 := if 0 ≤ ex then mant * 10 ^ ex.toNat else mant
  let scale1 := if 0 ≤ ex then scale else scale + (-ex).toNat
  let p := stripZeros mant1 scale1
  ⟨if p.1 = 0 then false else neg, p.1, p.2⟩

mutual

inductive JVal where
  | null
  | jbool (b : Bool)
  | jnum (n : JNum)
  | jstr (s : String)
  | jarr (elems : JArr)
  | jobj (fields : JObj)

inductive JArr where
  | nil
  | cons (v : JVal) (rest : JArr)

inductive JObj where
  | nil
  | cons (k : String) (v : JVal) (rest : JObj)

end

/-- Array node from a list of elements. -/
def JArr.ofList : List JVal → JArr
  | [] => .nil
  | v :: vs => .cons v (JArr.ofList vs)

/-- Object node from a list of fields. -/
def JObj.ofList : List (String × JVal) → JObj
  | [] => .nil
  | kv :: kvs => .cons kv.1 kv.2 (JObj.ofList kvs)

/-- Is this one of the four JSON whitespace characters? -/
def isWsChar (c : Char) : Bool :=
  c = ' ' ∨ c = '\t' ∨ c = '\n' ∨ c = '\r'

/-- Drop leading JSON whitespace. -/
def skipWs : List Char → List Char
  | [] => []
  | c :: cs => if isWsChar c then skipWs cs else c :: cs

/-- Value of a hexadecimal digit character, if it is one. -/
def hexVal (c : Char) : Option ℕ :=
  if '0' ≤ c ∧ c ≤ '9' then some (c.toNat - '0'.toNat)
  else if 'a' ≤ c ∧ c ≤ 'f' then some (c.toNat - 'a'.toNat + 10)
  else if 'A' ≤ c ∧ c ≤ 'F' then some (c.toNat - 'A'.toNat + 10)
  else none

/-- The double quote character. -/
def quoteChar : Char :=
  Char.ofNat 34

/-- The backslash character. -/
def backslashChar : Char :=
  Char.ofNat 92

/-- Character denoted by a single-letter JSON escape, if legal. -/
def escToChar (c : Char) : Option Char :=
  if c = quoteChar then some quoteChar
  else if c = backslashChar then some backslashChar
  else if c = '/' then some '/'
  else if c = 'b' then some (Char.ofNat 8)
  else if c = 'f' then some (Char.ofNat 12)
  else if c = 'n' then some '\n'
  else if c = 'r' then some '\r'
  else if c = 't' then some '\t'
  else none

/-- Parse a JSON string body after its opening quote, returning the decoded
characters and the input after the closing quote; raw control characters are
rejected as in `JSON.parse`. -/
def parseStringBody : List Char → Option (List Char × List Char)
  | [] => none
  | c :: rest =>
    if c = quoteChar then some ([], rest)
    else if c = backslashChar then
      match rest with
      | 'u' :: h1 :: h2 :: h3 :: h4 :: rest2 =>
        (match hexVal h1, hexVal h2, hexVal h3, hexVal h4 with
         | some a, some b, some c2, some d =>
           (match parseStringBody rest2 with
            | some (s, r) => some (Char.ofNat (((a * 16 + b) * 16 + c2) * 16 + d) :: s, r)
            | none => none)
         | _, _, _, _ => none)
      | e :: rest2 =>
        (match escToChar e, parseStringBody rest2 with
         | some c2, some (s, r) => some (c2 :: s, r)
         | _, _ => none)
      | [] => none
    else if c.toNat < 32 then none
    else
      match parseStringBody rest with
      | some (s, r) => some (c :: s, r)
      | none => none

/-- Longest leading run of decimal digits, as digit values. -/
def takeDigits : List Char → List ℕ × List Char
  | [] => ([], [])
  | c :: cs =>
    match decVal c with
    | some d =>
      let p := takeDigits cs
      (d :: p.1, p.2)
    | none => ([], c :: cs)

/-- Number denoted by big-endian decimal digits. -/
def ofDigitsBE (ds : List ℕ) : ℕ :=
  ds.foldl (fun a d => a * 10 + d) 0

/-- Parse the optional exponent digits of a JSON number (after `e`/`E`). -/
def parseExpDigits (neg : Bool) (mant scale : ℕ) (cs : List Char) :
    Option (JNum × List Char) :=
  let sgnp : Bool × List Char :=
    match cs with
    | '+' :: r => (false, r)
    | '-' :: r => (true, r)
    | _ => (false, cs)
  match takeDigits sgnp.2 with
  | ([], _) => none
  | (e :: es, rest) =>
    let ev : Int := Int.ofNat (ofDigitsBE (e :: es))
    some (mkJNum neg mant scale (if sgnp.1 then -ev else ev), rest)

/-- Parse the optional exponent part of a JSON number. -/
def parseExpPart (neg : Bool) (mant scale : ℕ) (cs : List Char) :
    Option (JNum × List Char) :=
  match cs with
  | 'e' :: cs1 => parseExpDigits neg mant scale cs1
  | 'E' :: cs1 => parseExpDigits neg mant scale cs1
  | _ => some (mkJNum neg mant scale 0, cs)

/-- Parse a JSON number (`-? int frac? exp?`, no leading zeros). -/
def parseNumber (cs : List Char) : Option (JNum × List Char) :=
  let negp : Bool × List Char :=
    match cs with
    | '-' :: r => (true, r)
    | _ => (false, cs)
  match takeDigits negp.2 with
  | ([], _) => none
  | (d :: ds, cs2) =>
    if d = 0 ∧ ds ≠ [] then none
    else
      match cs2 with
      | '.' :: cs3 =>
        (match takeDigits cs3 with
         | ([], _) => none
         | (f :: fs, cs4) =>
           parseExpPart negp.1 (ofDigitsBE (d :: ds ++ f :: fs)) (f :: fs).length cs4)
      | _ => parseExpPart negp.1 (ofDigitsBE (d :: ds)) 0 cs2

/-- The parser's current production: a value, the remaining elements of an
array, or the remaining fields of an object. -/
inductive PMode where
  | val
  | arrElems (acc : List JVal)
  | objFields (acc : List (String × JVal))

/-- Recursive-descent JSON parser; the fuel bounds the recursion depth and
shrinks at every step, at least every second step also consuming input. -/
def parseJ : ℕ → PMode → List Char → Option (JVal × List Char)
  | 0, _, _ => none
  | fuel + 1, .val, cs =>
    (match skipWs cs with
     | 'n' :: 'u' :: 'l' :: 'l' :: r => some (.null, r)
     | 't' :: 'r' :: 'u' :: 'e' :: r => some (.jbool true, r)
     | 'f' :: 'a' :: 'l' :: 's' :: 'e' :: r => some (.jbool false, r)
     | '[' :: r =>
       (match skipWs r with
        | ']' :: r1 => some (.jarr .nil, r1)
        | r1 => parseJ fuel (.arrElems []) r1)
     | '\x7b' :: r =>
       (match skipWs r with
        | '\x7d' :: r1 => some (.jobj .nil, r1)
        | r1 => parseJ fuel (.objFields []) r1)
     | c :: r =>
       if c = quoteChar then
         match parseStringBody r with
         | some (s, r1) => some (.jstr (String.mk s), r1)
         | none => none
       else
         (match parseNumber (c :: r) with
          | some (n, r1) => some (.jnum n, r1)
          | none => none)
     | [] => none)
  | fuel + 1, .arrElems acc, cs =>
    (match parseJ fuel .val cs with
     | some (v, r) =>
       (match skipWs r with
        | ',' :: r1 => parseJ fuel (.arrElems (acc ++ [v])) r1
        | ']' :: r1 => some (.jarr (JArr.ofList (acc ++ [v])), r1)
        | _ => none)
     | none => none)
  | fuel + 1, .objFields acc, cs =>
    match skipWs cs with
    | c :: r =>
      if c = quoteChar then
        match parseStringBody r with
        | some (k, r1) =>
          (match skipWs r1 with
           | ':' :: r2 =>
             (match parseJ fuel .val r2 with
              | some (v, r3) =>
                (match skipWs r3 with
                 | ',' :: r4 => parseJ fuel (.objFields (acc ++ [(String.mk k, v)])) r4
                 | '\x7d' :: r4 => some (.jobj (JObj.ofList (acc ++ [(String.mk k, v)])), r4)
                 | _ => none)
              | none => none)
           | _ => none)
        | none => none
      else none
    | [] => none

/-- Model of `JSON.parse`: parse one JSON value and accept only trailing
whitespace after it. -/
def jsonParse (s : String) : Option JVal :=
  match parseJ (2 * s.toList.length + 4) .val s.toList with
  | some (v, rest) => if skipWs rest = [] then some v else none
  | none => none

/-- Character of one hexadecimal digit. -/
def hexChar (d : ℕ) : Char :=
  if d < 10 then decChar d else Char.ofNat ('a'.toNat + (d - 10))

/-- JSON escape of one string character, as `JSON.stringify` renders it:
quote, backslash and the named control characters get two-character escapes,
other control characters get `\u00xx`. -/
def escChar (c : Char) : List Char :=
  if c = quoteChar then [backslashChar, quoteChar]
  else if c = backslashChar then [backslashChar, backslashChar]
  else if c = Char.ofNat 8 then [backslashChar, 'b']
  else if c = '\t' then [backslashChar, 't']
  else if c = '\n' then [backslashChar, 'n']
  else if c = Char.ofNat 12 then [backslashChar, 'f']
  else if c = '\r' then [backslashChar, 'r']
  else if c.toNat < 32 then
    [backslashChar, 'u', '0', '0', hexChar (c.toNat / 16), hexChar (c.toNat % 16)]
  else [c]

/-- Quoted, escaped JSON rendering of a string. -/
def quoteStr (s : String) : String :=
  String.mk (quoteChar :: ((s.toList.map escChar).flatten ++ [quoteChar]))

/-- Decimal rendering of a canonical JSON number, as JS renders numbers of
ordinary magnitude (no exponential form). -/
def jnumToString (n : JNum) : String :=
  let ds := natToString n.mant
  let sign := if n.neg then "-" else ""
  if n.scale = 0 then sign ++ ds
  else
    let l := ds.toList
    if n.scale < l.length then
      sign ++ String.mk (l.take (l.length - n.scale)) ++ "." ++
        String.mk (l.drop (l.length - n.scale))
    else
      sign ++ "0." ++ String.mk (List.replicate (n.scale - l.length) '0') ++ ds

mutual

/-- Model of `JSON.stringify` with no indentation. -/
def stringify : JVal → String
  | .null => "null"
  | .jbool true => "true"
  | .jbool false => "false"
  | .jnum n => jnumToString n
  | .jstr s => quoteStr s
  | .jarr xs => "[" ++ stringifyArr xs ++ "]"
  | .jobj fs => "\x7b" ++ stringifyObj fs ++ "\x7d"

/-- Comma-joined renderings of the elements of an array. -/
def stringifyArr : JArr → String
  | .nil => ""
  | .cons v .nil => stringify v
  | .cons v rest => stringify v ++ "," ++ stringifyArr rest

/-- Comma-joined renderings of the fields of an object. -/
def stringifyObj : JObj → String
  | .nil => ""
  | .cons k v .nil => quoteStr k ++ ":" ++ stringify v
  | .cons k v rest => quoteStr k ++ ":" ++ stringify v ++ "," ++ stringifyObj rest

end

/-- Is this a character the JS regex dot does not match (line terminators)? -/
def isLineTerm (c : Char) : Bool :=
  c = '\n' ∨ c = '\r' ∨ c = Char.ofNat 0x2028 ∨ c = Char.ofNat 0x2029

/-- Does the input end with the closing character, every character before it
matched by the regex dot (so no line terminators)? -/
def dotStarThen (close : Char) : List Char → Bool
  | [] => false
  | [c] => c = close
  | c :: rest => !isLineTerm c && dotStarThen close rest

/-- Model of testing a JS regex of shape `^o.*c$` (no dotAll, no multiline). -/
def delimPat (o c : Char) (l : List Char) : Bool :=
  match l with
  | [] => false
  | x :: rest => x = o && dotStarThen c rest

/-- Model of testing the JS regex `^-?\d+(\.\d+)?$`. -/
def numberPat (l : List Char) : Bool :=
  let l1 := match l with
    | '-' :: r => r
    | _ => l
  match takeDigits l1 with
  | ([], _) => false
  | (_ :: _, rest) =>
    match rest with
    | [] => true
    | '.' :: r2 =>
      (match takeDigits r2 with
       | ([], _) => false
       | (_ :: _, r3) => r3.isEmpty)
    | _ => false

/-- The JSON-detection patterns of `tryParseJson` in the KV admin tool:
object, array, number, boolean and null shapes. -/
def looksLikeJson (s : String) : Bool :=
  delimPat '\x7b' '\x7d' s.toList || delimPat '[' ']' s.toList ||
    numberPat s.toList || s = "true" || s = "false" || s = "null"

/-- `tryParseJson` of the KV admin tool: when the stored string looks like
JSON by the detection patterns, parse it, falling back to the raw string when
`JSON.parse` throws; otherwise keep the string as is. -/
def tryParseJson (value : String) : JVal :=
  if looksLikeJson value then
    match jsonParse value with
    | some j => j
    | none => .jstr value
  else .jstr value

/-- `fetchKeyValues` of the KV admin tool: build the backup document by
fetching each key's stored string and JSON-sniffing it with `tryParseJson`.
(Writing the document to disk with `JSON.stringify` and reading it back with
`JSON.parse` is the identity on it and is elided.) -/
def fetchKeyValues (store : List (String × String)) : List (String × JVal) :=
  store.map fun kv => (kv.1, tryParseJson kv.2)

/-- The value string `restoreKV` writes for one document entry: strings are
written verbatim, any other value is re-serialized with `JSON.stringify`. -/
def restoreValueStr : JVal → String
  | .jstr s => s
  | v => stringify v

/-- `restoreKV` of the KV admin tool: one KV write per document entry, the
key taken verbatim. -/
def restoreKV (doc : List (String × JVal)) : List (String × String) :=
  doc.map fun kv => (kv.1, restoreValueStr kv.2)

/-- Export of the whole store followed by import of the resulting document. -/
def exportThenImport (store : List (String × String)) : List (String × String) :=
  restoreKV (fetchKeyValues store)

/-- Counterexample to claim C7: a store whose key `k` holds the value string
`1.0` does not round-trip — the export sniffs it as the JSON number 1 and
the re-import writes back `1`. -/
theorem exportThenImport_not_id :
    exportThenImport [("k", "1.0")] = [("k", "1")] ∧ ("1.0" : String) ≠ "1" := by
  constructor
  · rfl
  · decide

/-- Claim C7 (amended): exporting the namespace and re-importing the
resulting document preserves the flat key set exactly, and preserves every
value the export's JSON detection leaves alone; a value detected as JSON is
replaced by its canonical re-serialization (so `1.0` becomes `1`). -/
theorem exportThenImport_keys_and_values (store : List (String × String)) :
    (exportThenImport store).map Prod.fst = store.map Prod.fst ∧
    ∀ k v, (k, v) ∈ store → looksLikeJson v = false →
      (k, v) ∈ exportThenImport store := by
  constructor
  · simp [exportThenImport, restoreKV, fetchKeyValues]
  · intro k v hmem hnj
    have h1 : (fun kv : String × String =>
        (kv.1, restoreValueStr (tryParseJson kv.2))) (k, v) ∈ exportThenImport store := by
      simp only [exportThenImport, restoreKV, fetchKeyValues, List.map_map]
      exact List.mem_map_of_mem _ hmem
    have h2 : restoreValueStr (tryParseJson v) = v := by
      rw [tryParseJson, if_neg (by simp [hnj])]
      rfl
    simpa [h2] using h1

/-- Witness for the amended C7: a store holding the plain string `hello`
round-trips unchanged. -/
theorem exportThenImport_keys_and_values_witness :
    (exportThenImport [("a", "hello")]).map Prod.fst = ["a"] ∧
    ("a", "hello") ∈ exportThenImport [("a", "hello")] := by
  have h := exportThenImport_keys_and_values [("a", "hello")]
  exact ⟨by simpa using h.1, h.2 "a" "hello" (by simp) (by decide)⟩

/-- Counterexample to claim C8: importing a document whose only entry is the
reserved `_anchors` section writes a KV key for it — the restore tool performs
no anchor exclusion. -/
theorem restoreKV_writes_anchors :
    restoreKV [("_anchors", .jobj .nil)] = [("_anchors", "\x7b\x7d")] := rfl

/-- Claim C8 (amended): the import writes exactly one KV entry per document
entry, keys taken verbatim — the `_anchors` section included; no anchor
expansion or exclusion happens in this restore path. -/
theorem restoreKV_keys (doc : List (String × JVal)) :
    (restoreKV doc).map Prod.fst = doc.map Prod.fst := by
  simp [restoreKV]

/-- One key returned by a KV namespace listing. -/
structure KVKey where
  name : String
deriving DecidableEq

/-- A non-null result of `GDIO_REDIRECTS.list()`. -/
structure KVListing where
  keys : List KVKey

/-- One entry of the redirects list the handler builds: the slug and the
redirect record (whose url lookup is started but not awaited in the source;
the looked-up value stands for that pending lookup). -/
structure RedirectEntry where
  slug : String
  redirectSlug : String
  redirectUrl : Option String
deriving DecidableEq

/-- `getRedirectsList` of `src/endpoints/urlList.ts`: map each listed key to
its entry. -/
def getRedirectsList (store : Store) (keys : List KVKey) : List RedirectEntry :=
  keys.map fun k => ⟨k.name, k.name, store k.name⟩

/-- The two response shapes of `UrlList.handle`: the 404 JSON with its
success flag, and the success payload with its redirects field. -/
inductive UrlListResponse where
  | notFound (success : Bool) (status : ℕ)
  | ok (success : Bool) (redirects : List RedirectEntry)
deriving DecidableEq

/-- `UrlList.handle` of `src/endpoints/urlList.ts`: list the redirect
namespace; when the listing is null or its key list is empty, respond 404
with success false, otherwise respond successfully with the redirects list. -/
def urlListHandle (store : Store) (val : Option KVListing) : UrlListResponse :=
  match val with
  | none => .notFound false 404
  | some v =>
    if v.keys.length = 0 then .notFound false 404
    else .ok true (getRedirectsList store v.keys)

/-- Claim C9: the UrlList handler responds 404 with success false exactly
when the namespace listing is null or has zero keys, and for every non-empty
listing responds with success true and the redirects field. -/
theorem urlListHandle_cases (store : Store) (val : Option KVListing) :
    (urlListHandle store val = .notFound false 404 ↔
      (val = none ∨ ∃ v, val = some v ∧ v.keys = [])) ∧
    (∀ v, val = some v → v.keys ≠ [] →
      urlListHandle store val = .ok true (getRedirectsList store v.keys)) := by
  constructor
  · constructor
    · intro h
      match val with
      | none => exact Or.inl rfl
      | some v =>
        by_cases hlen : v.keys.length = 0
        · exact Or.inr ⟨v, rfl, List.length_eq_zero.mp hlen⟩
        · rw [show urlListHandle store (some v) =
              (if v.keys.length = 0 then .notFound false 404
               else .ok true (getRedirectsList store v.keys)) from rfl, if_neg hlen] at h
          exact absurd h (by simp)
    · rintro (rfl | ⟨v, rfl, hk⟩)
      · rfl
      · show (if v.keys.length = 0 then UrlListResponse.notFound false 404
          else .ok true (getRedirectsList store v.keys)) = .notFound false 404
        rw [if_pos (by simp [hk])]
  · rintro v rfl hne
    show (if v.keys.length = 0 then UrlListResponse.notFound false 404
      else .ok true (getRedirectsList store v.keys)) = _
    rw [if_neg (by simpa using hne)]

/-- Witness for C9: an empty listing yields the 404 shape and a one-key
listing yields the success shape. -/
theorem urlListHandle_cases_witness :
    urlListHandle (fun _ => none) (some ⟨[]⟩) = .notFound false 404 ∧
    urlListHandle (fun _ => none) (some ⟨[⟨"gh"⟩]⟩) =
      .ok true (getRedirectsList (fun _ => none) [⟨"gh"⟩]) :=
  ⟨(urlListHandle_cases (fun _ => none) (some ⟨[]⟩)).1.mpr (Or.inr ⟨⟨[]⟩, rfl, rfl⟩),
   (urlListHandle_cases (fun _ => none) (some ⟨[⟨"gh"⟩]⟩)).2 ⟨[⟨"gh"⟩]⟩ rfl (by simp)⟩

/-- JS `a || b` on an optional string field: the empty string and an absent
field are both falsy. -/
def jsOrString (a : Option String) (b : String) : String :=
  match a with
  | some s => if s = "" then b else s
  | none => b

/-- Drop leading characters that JS `trim` removes (the ASCII whitespace
characters that occur here). -/
def trimLeft : List Char → List Char
  | [] => []
  | c :: cs => if isWsChar c then trimLeft cs else c :: cs

/-- Model of JS `String.prototype.trim` on ASCII input. -/
def jsTrim (s : String) : String :=
  String.mk (trimLeft ((trimLeft s.toList.reverse).reverse))

/-- The alt-text post-processing of `alt.get.ts`: take `description`, else
`text`, else the fixed fallback sentence; trim; cap at 300 characters by
cutting to 297 and appending an ellipsis. -/
def processAltText (description text : Option String) : String :=
  let altText := jsOrString description (jsOrString text "Unable to generate description")
  let trimmed := jsTrim altText
  if trimmed.length > 300 then String.mk (trimmed.toList.take 297) ++ "..." else trimmed

/-- Claim C10: the returned alt text is at most 300 characters; the model
output is trimmed, a trimmed text longer than 300 characters is replaced by
its first 297 characters followed by `...` (exactly 300), and an absent
description and text fall back to the fixed sentence. -/
theorem processAltText_bounded :
    (∀ description text : Option String,
      (processAltText description text).length ≤ 300 ∧
      ((jsTrim (jsOrString description
          (jsOrString text "Unable to generate description"))).length > 300 →
        processAltText description text =
          String.mk ((jsTrim (jsOrString description
            (jsOrString text "Unable to generate description"))).toList.take 297) ++ "...")) ∧
    processAltText none none = "Unable to generate description" := by
  refine ⟨fun description text => ?_, by decide⟩
  rw [processAltText]
  by_cases hlong : (jsTrim (jsOrString description
      (jsOrString text "Unable to generate description"))).length > 300
  · rw [if_pos hlong]
    have hlen : (String.mk ((jsTrim (jsOrString description
        (jsOrString text "Unable to generate description"))).toList.take 297) ++ "...").length =
        min 297 (jsTrim (jsOrString description
          (jsOrString text "Unable to generate description"))).toList.length + 3 := by
      simp [String.length_append]
      rfl
    have htl : (jsTrim (jsOrString description
        (jsOrString text "Unable to generate description"))).toList.length =
        (jsTrim (jsOrString description
          (jsOrString text "Unable to generate description"))).length := rfl
    exact ⟨by omega, fun _ => rfl⟩
  · rw [if_neg hlong]
    exact ⟨by omega, fun h => absurd h hlong⟩

set_option maxRecDepth 20000 in
/-- Witness for C10: a 301-character description is returned trimmed to its
first 297 characters plus an ellipsis, within the 300-character bound. -/
theorem processAltText_bounded_witness :
    (processAltText (some (String.mk (List.replicate 301 'a'))) none).length ≤ 300 ∧
    processAltText (some (String.mk (List.replicate 301 'a'))) none =
      String.mk (List.replicate 297 'a') ++ "..." := by
  have h := processAltText_bounded.1 (some (String.mk (List.replicate 301 'a'))) none
  refine ⟨h.1, ?_⟩
  have h2 := h.2 (by decide)
  rw [h2]
  decide
